import Mathlib

/-!
Task tracker (`main.go`): embedding and verified properties.

The program keeps a JSON array of tasks in one file and rewrites the whole
file on every mutation.  The embedding below follows `main.go` function by
function:

* the backing file is represented by the task array it decodes to
  (`List Task`, strings valid UTF-8); write failures are not part of it, and
  where the decoding step itself matters (`getTasksFrom`) the call to
  `json.Unmarshal` is a parameter;
* a Go `string` in memory is arbitrary bytes (`GoString`): command-line
  arguments arrive as such, and `updateTasks` stores them the way
  `json.Marshal` does, with every byte outside well-formed UTF-8 replaced by
  U+FFFD;
* `time.Time` is an instant count whose value `0` is the zero time, and the
  reading of `time.Now()` is an explicit argument `now` of each operation;
* Go `int` is a 64-bit wrapping integer: ids are `Int`, and the only
  arithmetic on them (`Id + 1` in `add`) wraps through `wrapInt`;
* an operation returns an `Outcome`: the file after it, what it printed, and
  the panic value if it panicked.
-/

namespace TaskCli

/-! ## Data model -/

/-- Go `type TaskStatus string`. -/
abbrev TaskStatus := String

/-- Constant `Done`. -/
def Done : TaskStatus := "done"

/-- Constant `Todo`. -/
def Todo : TaskStatus := "todo"

/-- Constant `InProgress`. -/
def InProgress : TaskStatus := "in-progress"

/-- Go `time.Time`, reduced to an instant count; `0` is the zero time. -/
abbrev Time := Nat

/-- Method `time.Time.IsZero`. -/
def Time.IsZero (t : Time) : Bool := t == 0

/-- Go `type Task struct`, as a record decoded from the file: its two strings
are valid UTF-8 text. -/
structure Task where
  DeletedAt : Time
  CreatedAt : Time
  UpdatedAt : Time
  Description : String
  Status : TaskStatus
  Id : Int
  deriving DecidableEq, Repr

/-- One element of a Go `string` as the UTF-8 decoder splits it
(`utf8.DecodeRuneInString`): the well-formed encoding of a Unicode scalar value,
or a single byte that belongs to no well-formed encoding. -/
inductive GoRune where
  | rune (c : Char)
  | invalid (byte : Nat)
  deriving DecidableEq, Repr

/-- A Go `string` as it sits in memory: arbitrary bytes, read as the sequence
of well-formed runes and stray bytes.  Command-line arguments (`os.Args`) are
of this kind. -/
abbrev GoString := List GoRune

/-- The Go string that holds the UTF-8 encoding of a text. -/
def GoString.ofString (s : String) : GoString := s.data.map GoRune.rune

instance : Coe String GoString := ⟨GoString.ofString⟩

/-- What `json.Marshal` writes for one element of a string: the rune itself, or
U+FFFD in place of a stray byte. -/
def GoRune.toValid : GoRune → Char
  | .rune c => c
  | .invalid _ => Char.ofNat 65533

/-- The text that `json.Unmarshal` reads back for a Go string written by
`json.Marshal`: the string coerced to valid UTF-8. -/
def marshalString (g : GoString) : String := String.mk (g.map GoRune.toValid)

/-- A `Task` value in memory, its two strings as Go holds them.  The slice
handed to `json.Marshal` is made of these; the tasks decoded from the file are
the ones whose strings are valid UTF-8 (`Task`). -/
structure RawTask where
  DeletedAt : Time
  CreatedAt : Time
  UpdatedAt : Time
  Description : GoString
  Status : GoString
  Id : Int
  deriving DecidableEq, Repr

/-- A decoded task as the value in memory. -/
def Task.raw (t : Task) : RawTask :=
  { DeletedAt := t.DeletedAt, CreatedAt := t.CreatedAt, UpdatedAt := t.UpdatedAt,
    Description := GoString.ofString t.Description,
    Status := GoString.ofString t.Status, Id := t.Id }

/-- One record after `json.Marshal` and `json.Unmarshal`: id and instants as
they are, both strings coerced to valid UTF-8. -/
def RawTask.stored (m : RawTask) : Task :=
  { DeletedAt := m.DeletedAt, CreatedAt := m.CreatedAt, UpdatedAt := m.UpdatedAt,
    Description := marshalString m.Description, Status := marshalString m.Status,
    Id := m.Id }

/-- One thing written to standard output: a message line of `fmt.Println`, or
the table that `printTable` renders from a task slice (column layout is not
modelled, the rows are). -/
inductive Out where
  | line (s : String)
  | table (rows : List Task)
  deriving DecidableEq, Repr

/-- Result of running one command: the backing file afterwards, the output in
order, and the panic value when the command aborted. -/
structure Outcome where
  store : List Task
  out : List Out
  err : Option String
  deriving DecidableEq, Repr

/-- Two-complement wrap of a mathematical integer into Go `int` (64 bit). -/
def wrapInt (x : Int) : Int :=
  (x + 9223372036854775808) % 18446744073709551616 - 9223372036854775808

/-! ## Storage -/

/-- The loop `n := 0; for _, val := range s { if keep(val) { s[n] = val; n++ } }`
that `getTasks` and `list` run over their slice: `k` elements remain to be
visited, `i` is the range index, `n` the write index.  Returns the backing
array and the final `n`. -/
def compactLoop (keep : Task → Bool) : Nat → List Task → Nat → Nat → List Task × Nat
  | 0, s, _, n => (s, n)
  | k + 1, s, i, n =>
    match s[i]? with
    | none => (s, n)
    | some val =>
      if keep val then compactLoop keep k (s.set n val) (i + 1) (n + 1)
      else compactLoop keep k s (i + 1) n

/-- The loop above followed by the reslice `s = s[:n]`. -/
def compact (keep : Task → Bool) (s : List Task) : List Task :=
  let r := compactLoop keep s.length s 0 0
  r.1.take r.2

/-- Function `getTasks`: the decoded file, compacted in place to the tasks
whose `DeletedAt` is the zero time. -/
def getTasks (file : List Task) : List Task :=
  compact (fun val => Time.IsZero val.DeletedAt) file

/-- Function `updateTasks`: the decoded content of the file after
`json.Marshal(tasks)` has been written to it. -/
def updateTasks (tasks : List RawTask) : List Task := tasks.map RawTask.stored

/-! ## Lookup -/

/-- Go `cmp.Compare` on `int`. -/
def cmpCompare (a b : Int) : Int :=
  if a < b then -1 else if a > b then 1 else 0

/-- The loop of the standard library function `slices.BinarySearchFunc`:
`for i < j { h := int(uint(i+j) >> 1); if cmp(x[h], target) < 0 { i = h + 1 }
else { j = h } }`, with an iteration budget (the caller passes `len(x)`, and
`j - i` drops at every iteration, so the budget is never exhausted). -/
def bsearchLoop (x : List Task) (target : Task) (cmp : Task → Task → Int) :
    Nat → Nat → Nat → Nat
  | 0, i, _ => i
  | fuel + 1, i, j =>
    if i < j then
      let h := (i + j) / 2
      match x[h]? with
      | none => i
      | some e =>
        if cmp e target < 0 then bsearchLoop x target cmp fuel (h + 1) j
        else bsearchLoop x target cmp fuel i h
    else i

/-- Go standard library `slices.BinarySearchFunc` (called by `getTask`), after
its source: `n := len(x)`, the loop from `i, j := 0, n`, then
`return i, i < n && cmp(x[i], target) == 0`. -/
def BinarySearchFunc (x : List Task) (target : Task) (cmp : Task → Task → Int) :
    Nat × Bool :=
  let n := x.length
  let i := bsearchLoop x target cmp n 0 n
  (i, match x[i]? with
      | some e => decide (i < n) && decide (cmp e target = 0)
      | none => false)

/-- Function `getTask`: index of the task inside `tasks` (the pointer
`&tasks[n]`) together with the task it points to, or the error. -/
def getTask (tasks : List Task) (taskId : Int) : Except String (Nat × Task) :=
  let r := BinarySearchFunc tasks
    { DeletedAt := 0, CreatedAt := 0, UpdatedAt := 0, Description := "", Status := "",
      Id := taskId }
    (fun a b => cmpCompare a.Id b.Id)
  if !r.2 then .error "Task was not found"
  else
    match tasks[r.1]? with
    | some t => .ok (r.1, t)
    | none => .error "index out of range"

/-! ## Commands -/

/-- Function `list`: the table printed for a status filter, computed from the
file. -/
def list (file : List Task) (statusToGet : TaskStatus) : Out :=
  let tasks := getTasks file
  if statusToGet = "" then
    .table (compact (fun val => decide (val.Status ≠ Done)) tasks)
  else
    .table (compact (fun val => decide (val.Status = statusToGet)) tasks)

/-- Function `add`. -/
def add (file : List Task) (title : GoString) (now : Time) : Outcome :=
  let tasks := getTasks file
  let taskId : Int :=
    match tasks.getLast? with
    | some last => wrapInt (last.Id + 1)
    | none => 1
  let tasks := tasks.map Task.raw ++
    [{ Id := taskId, Description := title, Status := GoString.ofString Todo,
       CreatedAt := now, UpdatedAt := 0, DeletedAt := 0 }]
  let file := updateTasks tasks
  { store := file, out := [list file ""], err := none }

/-- Function `update`. -/
def update (file : List Task) (taskId : Int) (description : GoString) (now : Time) :
    Outcome :=
  let tasks := getTasks file
  match getTask tasks taskId with
  | .error e => { store := file, out := [], err := some e }
  | .ok (n, task) =>
    if !Time.IsZero task.DeletedAt then
      { store := file, out := [.line "Unable to update deleted tasks!"], err := none }
    else if task.Status = Done then
      { store := file, out := [.line "Unable to update completed tasks!"], err := none }
    else if GoString.ofString task.Description ≠ description then
      let tasks := (tasks.map Task.raw).set n
        { Task.raw task with Description := description, UpdatedAt := now }
      let file := updateTasks tasks
      { store := file, out := [list file ""], err := none }
    else
      { store := file, out := [list file ""], err := none }

/-- Function `updateTaskStatus`. -/
def updateTaskStatus (file : List Task) (taskId : Int) (status : TaskStatus)
    (now : Time) : Outcome :=
  let tasks := getTasks file
  match getTask tasks taskId with
  | .error e => { store := file, out := [], err := some e }
  | .ok (n, task) =>
    if status = Done ∧ task.Status ≠ InProgress then
      { store := file, out := [.line "Task should be in-progress before done!"],
        err := none }
    else if status = InProgress ∧ task.Status ≠ Todo then
      { store := file, out := [.line "Task should be todo before in-progress!"],
        err := none }
    else if !Time.IsZero task.DeletedAt then
      { store := file, out := [.line "Unable to update deleted tasks!"], err := none }
    else if task.Status ≠ status then
      let tasks := (tasks.map Task.raw).set n
        { Task.raw task with Status := GoString.ofString status, UpdatedAt := now }
      let file := updateTasks tasks
      { store := file, out := [list file ""], err := none }
    else
      { store := file, out := [list file ""], err := none }

/-- Function `delete`. -/
def delete (file : List Task) (taskId : Int) (now : Time) : Outcome :=
  let tasks := getTasks file
  match getTask tasks taskId with
  | .error _ => { store := file, out := [], err := none }
  | .ok (n, task) =>
    if !Time.IsZero task.DeletedAt then
      { store := file, out := [], err := none }
    else if task.Status = Done then
      { store := file, out := [.line "Unable to update completed tasks!"], err := none }
    else
      let tasks := (tasks.map Task.raw).set n { Task.raw task with DeletedAt := now }
      let file := updateTasks tasks
      { store := file, out := [list file ""], err := none }

/-- A command line accepted by the dispatcher in `main`, with the clock reading
the command observes. -/
inductive Op where
  | add (title : GoString) (now : Time)
  | update (taskId : Int) (description : GoString) (now : Time)
  | markInProgress (taskId : Int) (now : Time)
  | markDone (taskId : Int) (now : Time)
  | delete (taskId : Int) (now : Time)
  deriving DecidableEq, Repr

/-- Function `main`, after argument parsing: the `switch command` over the
mutating commands. -/
def main (file : List Task) : Op → Outcome
  | .add title now => add file title now
  | .update taskId description now => update file taskId description now
  | .markInProgress taskId now => updateTaskStatus file taskId InProgress now
  | .markDone taskId now => updateTaskStatus file taskId Done now
  | .delete taskId now => delete file taskId now

/-- The file after a sequence of command invocations, each one a fresh process
over the file its predecessor left. -/
def run (file : List Task) : List Op → List Task
  | [] => file
  | op :: ops => run (main file op).store ops

/-- The ids handed out by the `add` invocations of a command sequence, in
order: for each `add`, the id of the record it appended to the file. -/
def addIds (file : List Task) : List Op → List (Option Int)
  | [] => []
  | .add title now :: ops =>
    ((add file title now).store.getLast?.map (fun t => t.Id)) ::
      addIds (add file title now).store ops
  | op :: ops => addIds (main file op).store ops

/-- Ids strictly ascending in sequence order. -/
def StrictAsc (tasks : List Task) : Prop :=
  tasks.Pairwise (fun a b => a.Id < b.Id)

instance (tasks : List Task) : Decidable (StrictAsc tasks) := by
  unfold StrictAsc; infer_instance

/-- A store with a todo task, an in-progress task, a done task and a
soft-deleted record, ids ascending; used to instantiate the theorems. -/
def exampleStore : List Task :=
  [{ DeletedAt := 0, CreatedAt := 1, UpdatedAt := 0, Description := "a", Status := Todo,
     Id := 1 },
   { DeletedAt := 0, CreatedAt := 2, UpdatedAt := 5, Description := "b",
     Status := InProgress, Id := 2 },
   { DeletedAt := 0, CreatedAt := 3, UpdatedAt := 7, Description := "c", Status := Done,
     Id := 3 },
   { DeletedAt := 8, CreatedAt := 4, UpdatedAt := 0, Description := "d", Status := Todo,
     Id := 4 }]

/-- The todo task of `exampleStore`. -/
def exampleTodo : Task :=
  { DeletedAt := 0, CreatedAt := 1, UpdatedAt := 0, Description := "a", Status := Todo,
    Id := 1 }

/-- The done task of `exampleStore`. -/
def exampleDone : Task :=
  { DeletedAt := 0, CreatedAt := 3, UpdatedAt := 7, Description := "c", Status := Done,
    Id := 3 }

/-- Function `getTasks` with its two library calls explicit.  `read` is the
result of `os.ReadFile(filePath)`; `unmarshal data` stands for the call
`json.Unmarshal(data, &taskList)` and gives the slice that call leaves in
`taskList` together with the error it returns.  A read error panics; the error
of `json.Unmarshal` is discarded, and the slice is compacted whatever it was. -/
def getTasksFrom (unmarshal : String → List Task × Option String)
    (read : Except String String) : Except String (List Task) :=
  match read with
  | .error err => .error err
  | .ok data => .ok (getTasks (unmarshal data).1)

/-! ## The compaction loop is a filter -/

theorem compactLoop_spec (keep : Task → Bool) :
    ∀ (k : Nat) (s : List Task) (i n : Nat), n ≤ i → i + k = s.length →
      (compactLoop keep k s i n).1.take (compactLoop keep k s i n).2 =
        s.take n ++ (s.drop i).filter keep := by
  intro k
  induction k with
  | zero =>
    intro s i n _ hk
    have hi : s.length ≤ i := by omega
    simp [compactLoop, List.drop_eq_nil_of_le hi]
  | succ k ih =>
    intro s i n hn hk
    have hi : i < s.length := by omega
    have hget : s[i]? = some s[i] := List.getElem?_eq_getElem hi
    have hdrop : s.drop i = s[i] :: s.drop (i + 1) := List.drop_eq_getElem_cons hi
    rw [compactLoop, hget]
    by_cases hkeep : keep s[i] = true
    · simp only [hkeep, if_true]
      rw [ih (s.set n s[i]) (i + 1) (n + 1) (by omega) (by simp; omega)]
      have hnl : n < s.length := by omega
      have h1 : (s.set n s[i]).take (n + 1) = s.take n ++ [s[i]] := by
        rw [List.take_succ, List.set_take, List.set_eq_of_length_le (by simp)]
        simp [List.getElem?_set, hnl]
      have h2 : (s.set n s[i]).drop (i + 1) = s.drop (i + 1) := by
        rw [List.drop_set]
        simp
        omega
      rw [h1, h2, hdrop, List.filter_cons_of_pos hkeep]
      simp
    · have hkeep' : keep s[i] = false := by simpa using hkeep
      simp only [hkeep']
      rw [if_neg (by simp), ih s (i + 1) n (by omega) (by omega), hdrop,
        List.filter_cons_of_neg hkeep]

theorem compact_eq_filter (keep : Task → Bool) (s : List Task) :
    compact keep s = s.filter keep := by
  unfold compact
  have h := compactLoop_spec keep s.length s 0 0 (le_refl 0) (by simp)
  simpa using h

theorem getTasks_eq (file : List Task) :
    getTasks file = file.filter (fun val => Time.IsZero val.DeletedAt) :=
  compact_eq_filter _ file

/-! ## Binary search -/

theorem cmpCompare_neg (a b : Int) : cmpCompare a b < 0 ↔ a < b := by
  unfold cmpCompare
  split_ifs <;> simp <;> omega

theorem cmpCompare_zero (a b : Int) : cmpCompare a b = 0 ↔ a = b := by
  unfold cmpCompare
  split_ifs <;> simp <;> omega

theorem StrictAsc.lt_of_index {tasks : List Task} (hs : StrictAsc tasks) {a b : Nat}
    {ta tb : Task} (ha : tasks[a]? = some ta) (hb : tasks[b]? = some tb) (hab : a < b) :
    ta.Id < tb.Id := by
  obtain ⟨ha', rfl⟩ := List.getElem?_eq_some_iff.mp ha
  obtain ⟨hb', rfl⟩ := List.getElem?_eq_some_iff.mp hb
  exact (List.pairwise_iff_getElem.mp hs) a b ha' hb' hab

theorem bsearchLoop_spec (x : List Task) (target : Task) (hs : StrictAsc x) :
    ∀ (fuel i j : Nat), i ≤ j → j ≤ x.length → j - i ≤ fuel →
      (∀ k t, x[k]? = some t → k < i → t.Id < target.Id) →
      (∀ k t, x[k]? = some t → j ≤ k → target.Id ≤ t.Id) →
      (∀ k t, x[k]? = some t →
          k < bsearchLoop x target (fun a b => cmpCompare a.Id b.Id) fuel i j →
          t.Id < target.Id) ∧
      (∀ k t, x[k]? = some t →
          bsearchLoop x target (fun a b => cmpCompare a.Id b.Id) fuel i j ≤ k →
          target.Id ≤ t.Id) := by
  intro fuel
  induction fuel with
  | zero =>
    intro i j hij _ hf hlo hhi
    have : i = j := by omega
    subst this
    exact ⟨fun k t hk hlt => hlo k t hk (by simpa [bsearchLoop] using hlt),
      fun k t hk hle => hhi k t hk (by simpa [bsearchLoop] using hle)⟩
  | succ fuel ih =>
    intro i j hij hj hf hlo hhi
    rw [bsearchLoop]
    by_cases hlt : i < j
    · simp only [hlt, if_true]
      have hh : (i + j) / 2 < x.length := by omega
      rw [List.getElem?_eq_getElem hh]
      simp only [cmpCompare_neg]
      by_cases hc : x[(i + j) / 2].Id < target.Id
      · simp only [hc, if_true]
        refine ih ((i + j) / 2 + 1) j (by omega) hj (by omega) ?_ hhi
        intro k t hk hkl
        by_cases hkh : k = (i + j) / 2
        · subst hkh
          rw [List.getElem?_eq_getElem hh] at hk
          cases hk
          exact hc
        · have := hs.lt_of_index hk (List.getElem?_eq_getElem hh) (by omega)
          omega
      · simp only [hc, if_false]
        refine ih i ((i + j) / 2) (by omega) (by omega) (by omega) hlo ?_
        intro k t hk hkl
        by_cases hkh : k = (i + j) / 2
        · subst hkh
          rw [List.getElem?_eq_getElem hh] at hk
          cases hk
          omega
        · have := hs.lt_of_index (List.getElem?_eq_getElem hh) hk (by omega)
          omega
    · simp only [hlt, if_false]
      have : i = j := by omega
      subst this
      exact ⟨hlo, hhi⟩

/-- Whatever the order of `tasks`, a successful lookup points at a task of the
slice that carries the requested id. -/
theorem getTask_ok {tasks : List Task} {taskId : Int} {n : Nat} {t : Task}
    (h : getTask tasks taskId = .ok (n, t)) : tasks[n]? = some t ∧ t.Id = taskId := by
  unfold getTask BinarySearchFunc at h
  simp only at h
  split at h
  · cases h
  · rename_i hfound
    split at h
    · rename_i t' ht'
      simp only [Except.ok.injEq, Prod.mk.injEq] at h
      obtain ⟨hn, rfl⟩ := h
      subst hn
      refine ⟨ht', ?_⟩
      rw [ht'] at hfound
      simp [cmpCompare_zero] at hfound
      exact hfound.2
    · cases h

/-- Whatever the order of `tasks`, the only error of a lookup is not-found. -/
theorem getTask_error {tasks : List Task} {taskId : Int} {e : String}
    (h : getTask tasks taskId = .error e) : e = "Task was not found" := by
  unfold getTask BinarySearchFunc at h
  simp only at h
  split at h
  · cases h; rfl
  · rename_i hfound
    split at h
    · cases h
    · rename_i hnone
      rw [hnone] at hfound
      simp at hfound

/-- On a strictly ascending slice the lookup of the id of the task at index `n`
returns index `n`. -/
theorem getTask_of_index {tasks : List Task} (hs : StrictAsc tasks) {n : Nat} {t : Task}
    (h : tasks[n]? = some t) : getTask tasks t.Id = .ok (n, t) := by
  obtain ⟨hn, hnt⟩ := List.getElem?_eq_some_iff.mp h
  have key := bsearchLoop_spec tasks
    { DeletedAt := 0, CreatedAt := 0, UpdatedAt := 0, Description := "", Status := "",
      Id := t.Id } hs tasks.length 0 tasks.length (Nat.zero_le _) (le_refl _) (by omega)
    (fun k t' _ hk => absurd hk (Nat.not_lt_zero k))
    (fun k t' hk hle => by
      have := (List.getElem?_eq_some_iff.mp hk).1
      omega)
  obtain ⟨hlo, hhi⟩ := key
  simp only at hlo hhi
  generalize hr : bsearchLoop tasks
    { DeletedAt := 0, CreatedAt := 0, UpdatedAt := 0, Description := "", Status := "",
      Id := t.Id } (fun a b => cmpCompare a.Id b.Id) tasks.length 0 tasks.length = r
    at hlo hhi
  have hrn : r = n := by
    rcases Nat.lt_trichotomy r n with hlt | heq | hgt
    · have hrl : r < tasks.length := by omega
      have h1 := hhi r tasks[r] (List.getElem?_eq_getElem hrl) (le_refl _)
      have h2 := hs.lt_of_index (List.getElem?_eq_getElem hrl) h hlt
      omega
    · exact heq
    · have := hlo n t h hgt
      omega
  unfold getTask BinarySearchFunc
  simp only [hr, hrn, h, hn, cmpCompare_zero]
  simp

/-! ## The loaded collection -/

theorem mem_getTasks {file : List Task} {t : Task} :
    t ∈ getTasks file ↔ t ∈ file ∧ t.DeletedAt = 0 := by
  simp [getTasks_eq, Time.IsZero]

theorem getTasks_of_all_zero {file : List Task} (h : ∀ t ∈ file, t.DeletedAt = 0) :
    getTasks file = file := by
  rw [getTasks_eq, List.filter_eq_self]
  intro a ha
  simp [Time.IsZero, h a ha]

theorem StrictAsc.getTasks {file : List Task} (hs : StrictAsc file) :
    StrictAsc (getTasks file) := by
  rw [getTasks_eq]
  exact List.Pairwise.filter _ hs

theorem mem_of_index {tasks : List Task} {n : Nat} {t : Task} (h : tasks[n]? = some t) :
    t ∈ tasks :=
  List.mem_iff_getElem?.mpr ⟨n, h⟩

/-- A task found by the lookup over the loaded collection is not deleted. -/
theorem getTask_getTasks_zero {file : List Task} {taskId : Int} {n : Nat} {t : Task}
    (h : getTask (getTasks file) taskId = .ok (n, t)) : t.DeletedAt = 0 :=
  (mem_getTasks.mp (mem_of_index (getTask_ok h).1)).2

/-- Replacing an element by one with the same id keeps the id order. -/
theorem StrictAsc.set_same_id {tasks : List Task} (hs : StrictAsc tasks) {n : Nat}
    {t t' : Task} (h : tasks[n]? = some t) (hid : t'.Id = t.Id) :
    StrictAsc (tasks.set n t') := by
  have hmap : (tasks.set n t').map (fun a => a.Id) = tasks.map (fun a => a.Id) := by
    apply List.ext_getElem?
    intro k
    by_cases hk : n = k
    · subst hk
      simp [List.getElem?_set, h, hid]
      exact (List.getElem?_eq_some_iff.mp h).1
    · simp [List.getElem?_set, hk]
  unfold StrictAsc at *
  have h1 : (tasks.map (fun a => a.Id)).Pairwise (fun a b => a < b) :=
    List.pairwise_map.mpr hs
  rw [← hmap] at h1
  exact List.pairwise_map.mp h1

/-- Writing back the loaded collection with one element replaced by a different
non-deleted record always changes the file. -/
theorem set_getTasks_ne {file : List Task} {n : Nat} {t t' : Task}
    (h : (getTasks file)[n]? = some t) (hne : t' ≠ t) (hz : t'.DeletedAt = 0) :
    (getTasks file).set n t' ≠ file := by
  intro heq
  have hall : ∀ a ∈ file, a.DeletedAt = 0 := by
    intro a ha
    rw [← heq] at ha
    rcases List.mem_or_eq_of_mem_set ha with h1 | h1
    · exact (mem_getTasks.mp h1).2
    · rw [h1]; exact hz
  rw [getTasks_of_all_zero hall] at h heq
  have hn := (List.getElem?_eq_some_iff.mp h).1
  have h2 : (file.set n t')[n]? = some t' := by
    simp [List.getElem?_set, hn]
  rw [heq, h] at h2
  exact hne (Option.some.inj h2).symm

/-! ## What a write stores -/

theorem marshalString_ofString (s : String) : marshalString (GoString.ofString s) = s := by
  have h : (s.data.map GoRune.rune).map GoRune.toValid = s.data := by
    rw [List.map_map]
    exact List.map_id _
  simp only [marshalString, GoString.ofString, h]

theorem ofString_injective {a b : String} (h : GoString.ofString a = GoString.ofString b) :
    a = b := by
  have := congrArg marshalString h
  rwa [marshalString_ofString, marshalString_ofString] at this

/-- A decoded task is stored back as it is. -/
theorem stored_raw (t : Task) : RawTask.stored (Task.raw t) = t := by
  simp [RawTask.stored, Task.raw, marshalString_ofString]

theorem updateTasks_map_raw (tasks : List Task) :
    updateTasks (tasks.map Task.raw) = tasks := by
  unfold updateTasks
  rw [List.map_map]
  have : RawTask.stored ∘ Task.raw = id := by
    funext t
    exact stored_raw t
  rw [this, List.map_id]

/-- Writing the loaded slice with one element replaced stores the loaded tasks
with that element replaced by its stored form. -/
theorem updateTasks_set_raw (tasks : List Task) (n : Nat) (m : RawTask) :
    updateTasks ((tasks.map Task.raw).set n m) = tasks.set n (RawTask.stored m) := by
  have h := updateTasks_map_raw tasks
  unfold updateTasks at h ⊢
  rw [List.map_set, h]

/-- Writing the loaded slice with one element appended stores the loaded tasks
followed by the stored form of that element. -/
theorem updateTasks_append_raw (tasks : List Task) (m : RawTask) :
    updateTasks (tasks.map Task.raw ++ [m]) = tasks ++ [RawTask.stored m] := by
  have h := updateTasks_map_raw tasks
  unfold updateTasks at h ⊢
  rw [List.map_append, h]
  rfl

/-! ## The commands, by the result of the lookup -/

theorem update_of_error {file : List Task} {taskId : Int} {e : String}
    (h : getTask (getTasks file) taskId = .error e) (description : GoString)
    (now : Time) :
    update file taskId description now = { store := file, out := [], err := some e } := by
  simp [update, h]

theorem update_of_found {file : List Task} {taskId : Int} {n : Nat} {t : Task}
    (h : getTask (getTasks file) taskId = .ok (n, t)) (description : GoString)
    (now : Time) :
    update file taskId description now =
      if t.Status = Done then
        { store := file, out := [.line "Unable to update completed tasks!"], err := none }
      else if GoString.ofString t.Description ≠ description then
        { store := (getTasks file).set n
            { t with Description := marshalString description, UpdatedAt := now },
          out := [list ((getTasks file).set n
            { t with Description := marshalString description, UpdatedAt := now }) ""],
          err := none }
      else { store := file, out := [list file ""], err := none } := by
  simp [update, h, getTask_getTasks_zero h, Time.IsZero, updateTasks_set_raw,
    RawTask.stored, Task.raw, marshalString_ofString]

theorem updateTaskStatus_of_error {file : List Task} {taskId : Int} {e : String}
    (h : getTask (getTasks file) taskId = .error e) (status : TaskStatus) (now : Time) :
    updateTaskStatus file taskId status now =
      { store := file, out := [], err := some e } := by
  simp [updateTaskStatus, h]

theorem updateTaskStatus_of_found {file : List Task} {taskId : Int} {n : Nat} {t : Task}
    (h : getTask (getTasks file) taskId = .ok (n, t)) (status : TaskStatus) (now : Time) :
    updateTaskStatus file taskId status now =
      if status = Done ∧ t.Status ≠ InProgress then
        { store := file, out := [.line "Task should be in-progress before done!"],
          err := none }
      else if status = InProgress ∧ t.Status ≠ Todo then
        { store := file, out := [.line "Task should be todo before in-progress!"],
          err := none }
      else if t.Status ≠ status then
        { store := (getTasks file).set n { t with Status := status, UpdatedAt := now },
          out := [list ((getTasks file).set n
            { t with Status := status, UpdatedAt := now }) ""],
          err := none }
      else { store := file, out := [list file ""], err := none } := by
  simp [updateTaskStatus, h, getTask_getTasks_zero h, Time.IsZero, updateTasks_set_raw,
    RawTask.stored, Task.raw, marshalString_ofString]

theorem delete_of_error {file : List Task} {taskId : Int} {e : String}
    (h : getTask (getTasks file) taskId = .error e) (now : Time) :
    delete file taskId now = { store := file, out := [], err := none } := by
  simp [delete, h]

theorem delete_of_found {file : List Task} {taskId : Int} {n : Nat} {t : Task}
    (h : getTask (getTasks file) taskId = .ok (n, t)) (now : Time) :
    delete file taskId now =
      if t.Status = Done then
        { store := file, out := [.line "Unable to update completed tasks!"], err := none }
      else
        { store := (getTasks file).set n { t with DeletedAt := now },
          out := [list ((getTasks file).set n { t with DeletedAt := now }) ""],
          err := none } := by
  simp [delete, h, getTask_getTasks_zero h, Time.IsZero, updateTasks_set_raw,
    RawTask.stored, Task.raw, marshalString_ofString]

/-- The lookup either fails with not-found or returns an index and its task. -/
theorem getTask_cases (tasks : List Task) (taskId : Int) :
    getTask tasks taskId = .error "Task was not found" ∨
      ∃ n t, getTask tasks taskId = .ok (n, t) := by
  cases h : getTask tasks taskId with
  | error e => left; rw [getTask_error h]
  | ok p => right; exact ⟨p.1, p.2, rfl⟩

/-- The lookup over a strictly ascending collection finds every member. -/
theorem getTask_of_mem {tasks : List Task} (hs : StrictAsc tasks) {t : Task}
    (ht : t ∈ tasks) : ∃ n, tasks[n]? = some t ∧ getTask tasks t.Id = .ok (n, t) := by
  obtain ⟨n, hn⟩ := List.mem_iff_getElem?.mp ht
  exact ⟨n, hn, getTask_of_index hs hn⟩

/-! ## Reachable files keep their ids ascending -/

theorem wrapInt_of_inRange {x : Int} (h1 : -9223372036854775808 ≤ x)
    (h2 : x < 9223372036854775808) : wrapInt x = x := by
  unfold wrapInt
  omega

/-- In a strictly ascending collection no id exceeds the id of the last task. -/
theorem StrictAsc.le_last {tasks : List Task} (hs : StrictAsc tasks) {last : Task}
    (hl : tasks.getLast? = some last) : ∀ a ∈ tasks, a.Id ≤ last.Id := by
  obtain ⟨ys, rfl⟩ := List.getLast?_eq_some_iff.mp hl
  unfold StrictAsc at hs
  rw [List.pairwise_append] at hs
  intro a ha
  rcases List.mem_append.mp ha with h | h
  · exact le_of_lt (hs.2.2 a h last (by simp))
  · simp at h
    rw [h]

/-- Shape of the file after `update`. -/
theorem update_store_shape (file : List Task) (taskId : Int) (description : GoString)
    (now : Time) :
    (update file taskId description now).store = file ∨
      ∃ n t t', (getTasks file)[n]? = some t ∧ t'.Id = t.Id ∧ t'.DeletedAt = 0 ∧
        (update file taskId description now).store = (getTasks file).set n t' := by
  rcases getTask_cases (getTasks file) taskId with h | ⟨n, t, h⟩
  · left; rw [update_of_error h]
  · rw [update_of_found h]
    split_ifs
    · left; rfl
    · right
      exact ⟨n, t, { t with Description := marshalString description, UpdatedAt := now },
        (getTask_ok h).1, rfl,
        (getTask_getTasks_zero h : t.DeletedAt = 0), rfl⟩
    · left; rfl

/-- Shape of the file after `updateTaskStatus`. -/
theorem updateTaskStatus_store_shape (file : List Task) (taskId : Int)
    (status : TaskStatus) (now : Time) :
    (updateTaskStatus file taskId status now).store = file ∨
      ∃ n t t', (getTasks file)[n]? = some t ∧ t'.Id = t.Id ∧ t'.DeletedAt = 0 ∧
        (updateTaskStatus file taskId status now).store = (getTasks file).set n t' := by
  rcases getTask_cases (getTasks file) taskId with h | ⟨n, t, h⟩
  · left; rw [updateTaskStatus_of_error h]
  · rw [updateTaskStatus_of_found h]
    split_ifs
    · left; rfl
    · left; rfl
    · right
      exact ⟨n, t, { t with Status := status, UpdatedAt := now },
        (getTask_ok h).1, rfl,
        (getTask_getTasks_zero h : t.DeletedAt = 0), rfl⟩
    · left; rfl

/-- Shape of the file after `delete`. -/
theorem delete_store_shape (file : List Task) (taskId : Int) (now : Time) :
    (delete file taskId now).store = file ∨
      ∃ n t, (getTasks file)[n]? = some t ∧
        (delete file taskId now).store =
          (getTasks file).set n { t with DeletedAt := now } := by
  rcases getTask_cases (getTasks file) taskId with h | ⟨n, t, h⟩
  · left; rw [delete_of_error h]
  · rw [delete_of_found h]
    split_ifs
    · left; rfl
    · right
      exact ⟨n, t, (getTask_ok h).1, rfl⟩

/-- Shape of the file after a command other than `add`: untouched, or the
loaded collection with one element replaced by a record of the same id. -/
theorem main_store_shape (file : List Task) (op : Op) :
    (∃ title now, op = .add title now) ∨ (main file op).store = file ∨
      ∃ n t t', (getTasks file)[n]? = some t ∧ t'.Id = t.Id ∧
        (main file op).store = (getTasks file).set n t' := by
  cases op with
  | add title now => left; exact ⟨title, now, rfl⟩
  | update taskId description now =>
    right
    rcases update_store_shape file taskId description now with h | ⟨n, t, t', h1, h2, _, h3⟩
    · left; exact h
    · right; exact ⟨n, t, t', h1, h2, h3⟩
  | markInProgress taskId now =>
    right
    rcases updateTaskStatus_store_shape file taskId InProgress now with
      h | ⟨n, t, t', h1, h2, _, h3⟩
    · left; exact h
    · right; exact ⟨n, t, t', h1, h2, h3⟩
  | markDone taskId now =>
    right
    rcases updateTaskStatus_store_shape file taskId Done now with
      h | ⟨n, t, t', h1, h2, _, h3⟩
    · left; exact h
    · right; exact ⟨n, t, t', h1, h2, h3⟩
  | delete taskId now =>
    right
    rcases delete_store_shape file taskId now with h | ⟨n, t, h1, h3⟩
    · left; exact h
    · right; exact ⟨n, t, { t with DeletedAt := now }, h1, rfl, h3⟩

/-- The file after `add`, in terms of the loaded collection. -/
theorem add_store (file : List Task) (title : GoString) (now : Time) :
    (add file title now).store = getTasks file ++
      [{ Id := (match (getTasks file).getLast? with
                | some last => wrapInt (last.Id + 1)
                | none => 1),
         Description := marshalString title, Status := Todo, CreatedAt := now,
         UpdatedAt := 0, DeletedAt := 0 }] := by
  simp only [add, updateTasks_append_raw, RawTask.stored, marshalString_ofString]

/-- One command keeps the ids strictly ascending and inside `[1, L + 1]` when
they were inside `[1, L]`, as long as `L + 1` is a Go `int`. -/
theorem main_preserves (file : List Task) (op : Op) (L : Int)
    (hs : StrictAsc file) (hb : ∀ t ∈ file, 1 ≤ t.Id ∧ t.Id ≤ L) (hL0 : 0 ≤ L)
    (hL : L + 1 < 9223372036854775808) :
    StrictAsc (main file op).store ∧
      ∀ t ∈ (main file op).store, 1 ≤ t.Id ∧ t.Id ≤ L + 1 := by
  have hbv : ∀ t ∈ getTasks file, 1 ≤ t.Id ∧ t.Id ≤ L := fun t ht =>
    hb t (mem_getTasks.mp ht).1
  rcases main_store_shape file op with ⟨title, now, rfl⟩ | h | ⟨n, t, t', h1, h2, h3⟩
  · show StrictAsc (add file title now).store ∧
      ∀ t ∈ (add file title now).store, 1 ≤ t.Id ∧ t.Id ≤ L + 1
    rw [add_store]
    cases hl : (getTasks file).getLast? with
    | none =>
      have hnil : getTasks file = [] := List.getLast?_eq_none_iff.mp hl
      simp only [hnil, List.nil_append]
      constructor
      · simp [StrictAsc]
      · intro t ht
        simp at ht
        subst ht
        simp only
        omega
    | some last =>
      have hlast := hbv last (List.mem_of_getLast?_eq_some hl)
      have hw : wrapInt (last.Id + 1) = last.Id + 1 :=
        wrapInt_of_inRange (by omega) (by omega)
      simp only [hw]
      constructor
      · unfold StrictAsc
        rw [List.pairwise_append]
        refine ⟨hs.getTasks, by simp, ?_⟩
        intro a ha b hb'
        simp at hb'
        subst hb'
        have := hs.getTasks.le_last hl a ha
        simp only
        omega
      · intro a ha
        rcases List.mem_append.mp ha with h | h
        · have := hbv a h
          omega
        · simp at h
          subst h
          simp only
          omega
  · rw [h]
    exact ⟨hs, fun t ht => ⟨(hb t ht).1, by have := (hb t ht).2; omega⟩⟩
  · rw [h3]
    refine ⟨hs.getTasks.set_same_id h1 h2, ?_⟩
    intro a ha
    rcases List.mem_or_eq_of_mem_set ha with h | h
    · have := hbv a h
      omega
    · have := hbv t (mem_of_index h1)
      rw [h, h2]
      omega

/-- A command sequence keeps the ids strictly ascending and bounded by the
number of commands run, as long as that number is a Go `int`. -/
theorem run_preserves : ∀ (ops : List Op) (file : List Task) (L : Int),
    StrictAsc file → (∀ t ∈ file, 1 ≤ t.Id ∧ t.Id ≤ L) → 0 ≤ L →
    L + ops.length < 9223372036854775808 →
    StrictAsc (run file ops) ∧ ∀ t ∈ run file ops, 1 ≤ t.Id ∧ t.Id ≤ L + ops.length := by
  intro ops
  induction ops with
  | nil =>
    intro file L hs hb _ _
    simpa [run] using ⟨hs, hb⟩
  | cons op ops ih =>
    intro file L hs hb hL0 hL
    simp only [List.length_cons, Nat.cast_add, Nat.cast_one] at hL ⊢
    obtain ⟨hs', hb'⟩ := main_preserves file op L hs hb hL0 (by omega)
    have := ih (main file op).store (L + 1) hs' hb' (by omega) (by omega)
    simp only [run]
    refine ⟨this.1, fun t ht => ?_⟩
    have := this.2 t ht
    omega

/-! ## Claims -/

/-- C1 (evaluation at the failing input): from the empty store, the commands
add "a", add "b", delete 2, add "c" hand out the ids 1, 2, 2: the third `add`
assigns id 2 again and not 3, because `add` numbers from the last task of the
loaded (non-deleted) collection. -/
theorem add_reuses_id_of_deleted_last_task :
    addIds [] [.add "a" 1, .add "b" 2, .delete 2 3, .add "c" 4] =
      [some 1, some 2, some 2] := by
  decide

/-- C2 (evaluation at the failing input): the stored collection holding task 1
and the soft-deleted task 2 has strictly ascending ids and is reached from the
empty store by add "a", add "b", delete 2; `add` on it assigns id 2, the id of a
stored (deleted) record, and not the maximum stored id plus one. -/
theorem add_id_equals_stored_deleted_id :
    run [] [.add "a" 1, .add "b" 2, .delete 2 3] =
        [{ DeletedAt := 0, CreatedAt := 1, UpdatedAt := 0, Description := "a",
           Status := Todo, Id := 1 },
         { DeletedAt := 3, CreatedAt := 2, UpdatedAt := 0, Description := "b",
           Status := Todo, Id := 2 }] ∧
      StrictAsc
        [{ DeletedAt := 0, CreatedAt := 1, UpdatedAt := 0, Description := "a",
           Status := Todo, Id := 1 },
         { DeletedAt := 3, CreatedAt := 2, UpdatedAt := 0, Description := "b",
           Status := Todo, Id := 2 }] ∧
      (add
        [{ DeletedAt := 0, CreatedAt := 1, UpdatedAt := 0, Description := "a",
           Status := Todo, Id := 1 },
         { DeletedAt := 3, CreatedAt := 2, UpdatedAt := 0, Description := "b",
           Status := Todo, Id := 2 }] "c" 4).store =
        [{ DeletedAt := 0, CreatedAt := 1, UpdatedAt := 0, Description := "a",
           Status := Todo, Id := 1 },
         { DeletedAt := 0, CreatedAt := 4, UpdatedAt := 0, Description := "c",
           Status := Todo, Id := 2 }] := by
  decide

/-- C3 (evaluation at the failing input): after add "a" and delete 1 the file
holds the soft-deleted record of task 1; the next command, add "b", rewrites the
file without that record (and gives the new task the id 1). -/
theorem add_drops_soft_deleted_record :
    run [] [.add "a" 1, .delete 1 2] =
        [{ DeletedAt := 2, CreatedAt := 1, UpdatedAt := 0, Description := "a",
           Status := Todo, Id := 1 }] ∧
      (add
        [{ DeletedAt := 2, CreatedAt := 1, UpdatedAt := 0, Description := "a",
           Status := Todo, Id := 1 }] "b" 3).store =
        [{ DeletedAt := 0, CreatedAt := 3, UpdatedAt := 0, Description := "b",
           Status := Todo, Id := 1 }] ∧
      ({ DeletedAt := 2, CreatedAt := 1, UpdatedAt := 0, Description := "a",
         Status := Todo, Id := 1 } : Task) ∉
        (add
          [{ DeletedAt := 2, CreatedAt := 1, UpdatedAt := 0, Description := "a",
             Status := Todo, Id := 1 }] "b" 3).store := by
  decide

/-- C4 (counterexample to the claim as stated): in the store holding task 2
before task 1, task 1 is visible with status todo, yet mark-in-progress 1 panics
with not-found and changes nothing: the binary search misses it. -/
theorem status_change_misses_task_in_unsorted_store :
    ({ DeletedAt := 0, CreatedAt := 2, UpdatedAt := 0, Description := "a",
       Status := Todo, Id := 1 } : Task) ∈
      getTasks
        [{ DeletedAt := 0, CreatedAt := 1, UpdatedAt := 0, Description := "b",
           Status := Todo, Id := 2 },
         { DeletedAt := 0, CreatedAt := 2, UpdatedAt := 0, Description := "a",
           Status := Todo, Id := 1 }] ∧
      updateTaskStatus
        [{ DeletedAt := 0, CreatedAt := 1, UpdatedAt := 0, Description := "b",
           Status := Todo, Id := 2 },
         { DeletedAt := 0, CreatedAt := 2, UpdatedAt := 0, Description := "a",
           Status := Todo, Id := 1 }] 1 InProgress 9 =
        { store :=
            [{ DeletedAt := 0, CreatedAt := 1, UpdatedAt := 0, Description := "b",
               Status := Todo, Id := 2 },
             { DeletedAt := 0, CreatedAt := 2, UpdatedAt := 0, Description := "a",
               Status := Todo, Id := 1 }],
          out := [], err := some "Task was not found" } := by
  decide

/-- C4 (amended): for every store whose loaded (non-deleted) tasks are strictly
ascending by id, every visible task `t` and every target in {in-progress, done}:
when (current status, target) is (todo, in-progress) or (in-progress, done) the
command returns normally and writes the loaded collection with `t` replaced, at
its index, by `t` with status = target and updatedAt = now; for every other
requested transition it returns normally and the stored collection is exactly
unchanged.  The stored collection changes exactly in the first case. -/
theorem status_change_follows_transition_guard (file : List Task) (t : Task)
    (target : TaskStatus) (now : Time)
    (hs : StrictAsc (getTasks file)) (ht : t ∈ file) (hz : t.DeletedAt = 0)
    (htarget : target = InProgress ∨ target = Done) :
    ∃ n, (getTasks file)[n]? = some t ∧
      (((t.Status = Todo ∧ target = InProgress) ∨
          (t.Status = InProgress ∧ target = Done)) →
        (updateTaskStatus file t.Id target now).store =
            (getTasks file).set n { t with Status := target, UpdatedAt := now } ∧
          (updateTaskStatus file t.Id target now).store[n]? =
            some { t with Status := target, UpdatedAt := now } ∧
          (updateTaskStatus file t.Id target now).err = none) ∧
      (¬ ((t.Status = Todo ∧ target = InProgress) ∨
          (t.Status = InProgress ∧ target = Done)) →
        (updateTaskStatus file t.Id target now).store = file ∧
          (updateTaskStatus file t.Id target now).err = none) ∧
      ((updateTaskStatus file t.Id target now).store ≠ file ↔
        ((t.Status = Todo ∧ target = InProgress) ∨
          (t.Status = InProgress ∧ target = Done))) := by
  obtain ⟨n, hn, hget⟩ := getTask_of_mem hs (mem_getTasks.mpr ⟨ht, hz⟩)
  have hlen := (List.getElem?_eq_some_iff.mp hn).1
  have hdt : Done ≠ InProgress := by decide
  have htd : Todo ≠ InProgress := by decide
  have htn : Todo ≠ Done := by decide
  have hgood : ((t.Status = Todo ∧ target = InProgress) ∨
      (t.Status = InProgress ∧ target = Done)) →
      (updateTaskStatus file t.Id target now) =
        { store := (getTasks file).set n { t with Status := target, UpdatedAt := now },
          out := [list ((getTasks file).set n
            { t with Status := target, UpdatedAt := now }) ""],
          err := none } := by
    intro h
    rw [updateTaskStatus_of_found hget]
    rcases h with ⟨h1, h2⟩ | ⟨h1, h2⟩
    · subst h2
      simp [h1, htd, hdt.symm]
    · subst h2
      simp [h1, hdt, hdt.symm]
  have hbad : ¬ ((t.Status = Todo ∧ target = InProgress) ∨
      (t.Status = InProgress ∧ target = Done)) →
      (updateTaskStatus file t.Id target now).store = file ∧
        (updateTaskStatus file t.Id target now).err = none := by
    intro h
    rw [updateTaskStatus_of_found hget]
    rcases htarget with h2 | h2
    · subst h2
      have h3 : t.Status ≠ Todo := fun h3 => h (Or.inl ⟨h3, rfl⟩)
      simp [h3, hdt.symm]
    · subst h2
      have h3 : t.Status ≠ InProgress := fun h3 => h (Or.inr ⟨h3, rfl⟩)
      simp [h3]
  refine ⟨n, hn, ?_, hbad, ?_⟩
  · intro h
    rw [hgood h]
    refine ⟨rfl, ?_, rfl⟩
    simp [List.getElem?_set, hlen]
  · constructor
    · intro hne
      by_contra h
      exact hne (hbad h).1
    · intro h
      rw [hgood h]
      have hne : ({ t with Status := target, UpdatedAt := now } : Task) ≠ t := by
        intro heq
        have hst : target = t.Status := congrArg Task.Status heq
        rcases h with ⟨h1, h2⟩ | ⟨h1, h2⟩
        · rw [h1, h2] at hst
          exact htd hst.symm
        · rw [h1, h2] at hst
          exact hdt hst
      exact set_getTasks_ne hn hne hz

/-- C4 (amended), instantiated: mark-in-progress of the todo task of
`exampleStore`. -/
theorem status_change_follows_transition_guard_witness :
    StrictAsc (getTasks exampleStore) ∧ exampleTodo ∈ exampleStore ∧
      ∃ n, (getTasks exampleStore)[n]? = some exampleTodo ∧
        (((exampleTodo.Status = Todo ∧ InProgress = InProgress) ∨
            (exampleTodo.Status = InProgress ∧ InProgress = Done)) →
          (updateTaskStatus exampleStore exampleTodo.Id InProgress 9).store =
              (getTasks exampleStore).set n
                { exampleTodo with Status := InProgress, UpdatedAt := 9 } ∧
            (updateTaskStatus exampleStore exampleTodo.Id InProgress 9).store[n]? =
              some { exampleTodo with Status := InProgress, UpdatedAt := 9 } ∧
            (updateTaskStatus exampleStore exampleTodo.Id InProgress 9).err = none) ∧
        (¬ ((exampleTodo.Status = Todo ∧ InProgress = InProgress) ∨
            (exampleTodo.Status = InProgress ∧ InProgress = Done)) →
          (updateTaskStatus exampleStore exampleTodo.Id InProgress 9).store =
              exampleStore ∧
            (updateTaskStatus exampleStore exampleTodo.Id InProgress 9).err = none) ∧
        ((updateTaskStatus exampleStore exampleTodo.Id InProgress 9).store ≠
            exampleStore ↔
          ((exampleTodo.Status = Todo ∧ InProgress = InProgress) ∨
            (exampleTodo.Status = InProgress ∧ InProgress = Done))) :=
  ⟨by decide, by decide,
    status_change_follows_transition_guard exampleStore exampleTodo InProgress 9
      (by decide) (by decide) (by decide) (by decide)⟩

/-- C5: for every store with strictly ascending ids and every visible task
whose status is done, update with any description, mark-in-progress, mark-done
and delete of its id all leave the stored collection exactly unchanged. -/
theorem done_task_commands_leave_store_unchanged (file : List Task) (t : Task)
    (description : GoString) (now : Time)
    (hs : StrictAsc file) (ht : t ∈ file) (hz : t.DeletedAt = 0)
    (hdone : t.Status = Done) :
    (update file t.Id description now).store = file ∧
      (updateTaskStatus file t.Id InProgress now).store = file ∧
      (updateTaskStatus file t.Id Done now).store = file ∧
      (delete file t.Id now).store = file := by
  obtain ⟨n, _, hget⟩ := getTask_of_mem hs.getTasks (mem_getTasks.mpr ⟨ht, hz⟩)
  have hdi : Done ≠ InProgress := by decide
  have hdt : Done ≠ Todo := by decide
  refine ⟨?_, ?_, ?_, ?_⟩
  · rw [update_of_found hget]
    simp [hdone]
  · rw [updateTaskStatus_of_found hget]
    simp [hdone, hdi.symm, hdt]
  · rw [updateTaskStatus_of_found hget]
    simp [hdone, hdi]
  · rw [delete_of_found hget]
    simp [hdone]

/-- C5, instantiated at the done task of `exampleStore`. -/
theorem done_task_commands_leave_store_unchanged_witness :
    StrictAsc exampleStore ∧ exampleDone ∈ exampleStore ∧
      (update exampleStore exampleDone.Id "x" 9).store = exampleStore ∧
      (updateTaskStatus exampleStore exampleDone.Id InProgress 9).store = exampleStore ∧
      (updateTaskStatus exampleStore exampleDone.Id Done 9).store = exampleStore ∧
      (delete exampleStore exampleDone.Id 9).store = exampleStore :=
  ⟨by decide, by decide,
    done_task_commands_leave_store_unchanged exampleStore exampleDone "x" 9
      (by decide) (by decide) (by decide) (by decide)⟩

/-- C6: in every store reached from the empty store by a sequence of add,
update, mark-in-progress, mark-done and delete commands (of fewer than 2^63
commands, so that the id counter stays a Go `int`), the stored ids are strictly
ascending in storage order, hence pairwise distinct, and the loaded collection
handed to the binary search is strictly ascending too. -/
theorem reachable_store_ids_strictly_ascending (ops : List Op)
    (hlen : ops.length < 9223372036854775808) :
    StrictAsc (run [] ops) ∧ ((run [] ops).map (fun t => t.Id)).Nodup ∧
      StrictAsc (getTasks (run [] ops)) := by
  have h := run_preserves ops [] 0 (by simp [StrictAsc]) (by simp) (le_refl 0)
    (by omega)
  refine ⟨h.1, ?_, h.1.getTasks⟩
  have h1 : ((run [] ops).map (fun t => t.Id)).Pairwise (fun a b => a < b) :=
    List.pairwise_map.mpr h.1
  exact h1.imp (fun hab => ne_of_lt hab)

/-- C6, instantiated at add, add, delete 1, add, mark-in-progress 2. -/
theorem reachable_store_ids_strictly_ascending_witness :
    StrictAsc (run [] [.add "a" 1, .add "b" 2, .delete 1 3, .add "c" 4,
        .markInProgress 2 5]) ∧
      ((run [] [.add "a" 1, .add "b" 2, .delete 1 3, .add "c" 4,
        .markInProgress 2 5]).map (fun t => t.Id)).Nodup ∧
      StrictAsc (getTasks (run [] [.add "a" 1, .add "b" 2, .delete 1 3, .add "c" 4,
        .markInProgress 2 5])) :=
  reachable_store_ids_strictly_ascending
    [.add "a" 1, .add "b" 2, .delete 1 3, .add "c" 4, .markInProgress 2 5] (by decide)

/-- C7: for every task sequence strictly ascending by id and every id,
`getTask` returns the task of the sequence carrying that id (with its index)
when there is one, and fails, with the not-found error and no other, exactly
when no task of the sequence has that id. -/
theorem getTask_returns_task_with_id (tasks : List Task) (taskId : Int)
    (hs : StrictAsc tasks) :
    (∀ t ∈ tasks, t.Id = taskId →
        ∃ n, tasks[n]? = some t ∧ getTask tasks taskId = .ok (n, t)) ∧
      (getTask tasks taskId = .error "Task was not found" ↔
        ∀ t ∈ tasks, t.Id ≠ taskId) ∧
      (∀ e, getTask tasks taskId = .error e → e = "Task was not found") := by
  refine ⟨?_, ?_, fun e he => getTask_error he⟩
  · intro t ht hid
    subst hid
    exact getTask_of_mem hs ht
  · constructor
    · intro herr t ht hid
      subst hid
      obtain ⟨n, _, hok⟩ := getTask_of_mem hs ht
      rw [hok] at herr
      cases herr
    · intro hno
      rcases getTask_cases tasks taskId with h | ⟨n, t, h⟩
      · exact h
      · exact absurd (getTask_ok h).2 (hno t (mem_of_index (getTask_ok h).1))

/-- C7, instantiated at the loaded `exampleStore` and id 2. -/
theorem getTask_returns_task_with_id_witness :
    StrictAsc (getTasks exampleStore) ∧
      (∀ t ∈ getTasks exampleStore, t.Id = 2 →
        ∃ n, (getTasks exampleStore)[n]? = some t ∧
          getTask (getTasks exampleStore) 2 = .ok (n, t)) ∧
      (getTask (getTasks exampleStore) 2 = .error "Task was not found" ↔
        ∀ t ∈ getTasks exampleStore, t.Id ≠ 2) ∧
      (∀ e, getTask (getTasks exampleStore) 2 = .error e → e = "Task was not found") :=
  ⟨by decide, getTask_returns_task_with_id (getTasks exampleStore) 2 (by decide)⟩

/-- C8: for every stored collection, `getTasks` returns exactly the stored
tasks whose deletedAt is zero, in stored order: it equals the filter of the file
by `deletedAt = 0`, so it holds no soft-deleted task, holds every non-deleted
one unaltered, and is a subsequence of the file. -/
theorem getTasks_returns_non_deleted_subsequence (file : List Task) :
    getTasks file = file.filter (fun t => decide (t.DeletedAt = 0)) ∧
      (∀ t, t ∈ getTasks file ↔ t ∈ file ∧ t.DeletedAt = 0) ∧
      (getTasks file).Sublist file := by
  have h : getTasks file = file.filter (fun t => decide (t.DeletedAt = 0)) := by
    rw [getTasks_eq]
    congr 1
  refine ⟨h, fun t => mem_getTasks, ?_⟩
  rw [h]
  exact List.filter_sublist _

/-- C9: for every store with strictly ascending ids and every id, `update`
and `updateTaskStatus` panic if and only if no non-deleted task has that id; in
that case the panic value is not-found, nothing is printed and storage is
unchanged, while `delete` returns normally, prints nothing and leaves storage
unchanged. -/
theorem missing_id_fatal_for_update_silent_for_delete (file : List Task) (taskId : Int)
    (hs : StrictAsc file) :
    (∀ description now, ((update file taskId description now).err ≠ none ↔
        ∀ t ∈ file, t.DeletedAt = 0 → t.Id ≠ taskId)) ∧
      (∀ status now, ((updateTaskStatus file taskId status now).err ≠ none ↔
        ∀ t ∈ file, t.DeletedAt = 0 → t.Id ≠ taskId)) ∧
      ((∀ t ∈ file, t.DeletedAt = 0 → t.Id ≠ taskId) →
        (∀ description now, update file taskId description now =
          { store := file, out := [], err := some "Task was not found" }) ∧
        (∀ status now, updateTaskStatus file taskId status now =
          { store := file, out := [], err := some "Task was not found" }) ∧
        (∀ now, delete file taskId now = { store := file, out := [], err := none })) := by
  have habs : (∀ t ∈ file, t.DeletedAt = 0 → t.Id ≠ taskId) →
      getTask (getTasks file) taskId = .error "Task was not found" := by
    intro hno
    rcases getTask_cases (getTasks file) taskId with h | ⟨n, t, h⟩
    · exact h
    · have hm := mem_getTasks.mp (mem_of_index (getTask_ok h).1)
      exact absurd (getTask_ok h).2 (hno t hm.1 hm.2)
  have hpres : ¬ (∀ t ∈ file, t.DeletedAt = 0 → t.Id ≠ taskId) →
      ∃ n t, getTask (getTasks file) taskId = .ok (n, t) := by
    intro hex
    push_neg at hex
    obtain ⟨t, ht, hz, hid⟩ := hex
    subst hid
    obtain ⟨n, _, hok⟩ := getTask_of_mem hs.getTasks (mem_getTasks.mpr ⟨ht, hz⟩)
    exact ⟨n, t, hok⟩
  refine ⟨?_, ?_, ?_⟩
  · intro description now
    constructor
    · intro herr
      by_contra hex
      obtain ⟨n, t, hok⟩ := hpres hex
      rw [update_of_found hok] at herr
      split_ifs at herr <;> exact herr rfl
    · intro hno
      rw [update_of_error (habs hno)]
      simp
  · intro status now
    constructor
    · intro herr
      by_contra hex
      obtain ⟨n, t, hok⟩ := hpres hex
      rw [updateTaskStatus_of_found hok] at herr
      split_ifs at herr <;> exact herr rfl
    · intro hno
      rw [updateTaskStatus_of_error (habs hno)]
      simp
  · intro hno
    exact ⟨fun description now => update_of_error (habs hno) description now,
      fun status now => updateTaskStatus_of_error (habs hno) status now,
      fun now => delete_of_error (habs hno) now⟩

/-- C9, instantiated at `exampleStore` and the id 4 of its soft-deleted
record. -/
theorem missing_id_fatal_for_update_silent_for_delete_witness :
    StrictAsc exampleStore ∧
      (∀ description now, ((update exampleStore 4 description now).err ≠ none ↔
        ∀ t ∈ exampleStore, t.DeletedAt = 0 → t.Id ≠ 4)) ∧
      (∀ status now, ((updateTaskStatus exampleStore 4 status now).err ≠ none ↔
        ∀ t ∈ exampleStore, t.DeletedAt = 0 → t.Id ≠ 4)) ∧
      ((∀ t ∈ exampleStore, t.DeletedAt = 0 → t.Id ≠ 4) →
        (∀ description now, update exampleStore 4 description now =
          { store := exampleStore, out := [], err := some "Task was not found" }) ∧
        (∀ status now, updateTaskStatus exampleStore 4 status now =
          { store := exampleStore, out := [], err := some "Task was not found" }) ∧
        (∀ now, delete exampleStore 4 now =
          { store := exampleStore, out := [], err := none })) :=
  ⟨by decide, missing_id_fatal_for_update_silent_for_delete exampleStore 4 (by decide)⟩

/-- C10 (counterexample to the claim as stated), in two parts.  In the store
holding task 2 before task 1, task 1 is visible, not done, and described "a";
update 1 "x" names a different description, yet it panics with not-found and
leaves storage unchanged: the binary search misses the task.  And in
`exampleStore`, update of task 1 with the one-byte argument 0xFF, which is not
valid UTF-8, stores the description U+FFFD and not the argument, so the same
update run again at clock reading 10 differs from the stored description again
and rewrites the record with updatedAt = 10. -/
theorem update_misses_unsorted_task_and_repeats_on_invalid_utf8 :
    ({ DeletedAt := 0, CreatedAt := 2, UpdatedAt := 0, Description := "a",
       Status := Todo, Id := 1 } : Task) ∈
      getTasks
        [{ DeletedAt := 0, CreatedAt := 1, UpdatedAt := 0, Description := "b",
           Status := Todo, Id := 2 },
         { DeletedAt := 0, CreatedAt := 2, UpdatedAt := 0, Description := "a",
           Status := Todo, Id := 1 }] ∧
      update
        [{ DeletedAt := 0, CreatedAt := 1, UpdatedAt := 0, Description := "b",
           Status := Todo, Id := 2 },
         { DeletedAt := 0, CreatedAt := 2, UpdatedAt := 0, Description := "a",
           Status := Todo, Id := 1 }] 1 (GoString.ofString "x") 9 =
        { store :=
            [{ DeletedAt := 0, CreatedAt := 1, UpdatedAt := 0, Description := "b",
               Status := Todo, Id := 2 },
             { DeletedAt := 0, CreatedAt := 2, UpdatedAt := 0, Description := "a",
               Status := Todo, Id := 1 }],
          out := [], err := some "Task was not found" } ∧
      (update exampleStore 1 [GoRune.invalid 255] 9).store[0]? =
        some { DeletedAt := 0, CreatedAt := 1, UpdatedAt := 9,
               Description := "\uFFFD", Status := Todo, Id := 1 } ∧
      GoString.ofString "\uFFFD" ≠ [GoRune.invalid 255] ∧
      (update (update exampleStore 1 [GoRune.invalid 255] 9).store 1
          [GoRune.invalid 255] 10).store[0]? =
        some { DeletedAt := 0, CreatedAt := 1, UpdatedAt := 10,
               Description := "\uFFFD", Status := Todo, Id := 1 } ∧
      (update (update exampleStore 1 [GoRune.invalid 255] 9).store 1
          [GoRune.invalid 255] 10).store ≠
        (update exampleStore 1 [GoRune.invalid 255] 9).store := by
  decide

/-- C10 (amended): for every store whose loaded (non-deleted) tasks are strictly
ascending by id, every visible task `t` that is not done and every description
`d` that is valid UTF-8 text: `update` of its id with `d` changes storage if and
only if `d` differs from the description of the task; when it differs, storage
becomes the loaded collection with `t` replaced, at its index, by `t` with
description `d` and updatedAt = now; when it is equal, storage (so also
updatedAt) is untouched; and running the same update again, at any clock
reading, changes nothing more. -/
theorem update_changes_store_iff_description_differs (file : List Task) (t : Task)
    (d : String) (now : Time)
    (hs : StrictAsc (getTasks file)) (ht : t ∈ file) (hz : t.DeletedAt = 0)
    (hnd : t.Status ≠ Done) :
    ((update file t.Id (GoString.ofString d) now).store ≠ file ↔ d ≠ t.Description) ∧
      (d ≠ t.Description → ∃ n, (getTasks file)[n]? = some t ∧
        (update file t.Id (GoString.ofString d) now).store =
          (getTasks file).set n { t with Description := d, UpdatedAt := now } ∧
        (update file t.Id (GoString.ofString d) now).store[n]? =
          some { t with Description := d, UpdatedAt := now }) ∧
      (d = t.Description → (update file t.Id (GoString.ofString d) now).store = file) ∧
      (∀ now2, (update (update file t.Id (GoString.ofString d) now).store t.Id
          (GoString.ofString d) now2).store =
        (update file t.Id (GoString.ofString d) now).store) := by
  obtain ⟨n, hn, hget⟩ := getTask_of_mem hs (mem_getTasks.mpr ⟨ht, hz⟩)
  have hlen := (List.getElem?_eq_some_iff.mp hn).1
  have hsame : d = t.Description →
      ∀ now', (update file t.Id (GoString.ofString d) now').store = file := by
    intro h now'
    rw [update_of_found hget]
    simp [hnd, h]
  have hdiff : d ≠ t.Description → (update file t.Id (GoString.ofString d) now).store =
      (getTasks file).set n { t with Description := d, UpdatedAt := now } := by
    intro h
    have hraw : GoString.ofString t.Description ≠ GoString.ofString d :=
      fun heq => h (ofString_injective heq).symm
    rw [update_of_found hget]
    simp [hnd, hraw, marshalString_ofString]
  have hat : ((getTasks file).set n { t with Description := d, UpdatedAt := now })[n]? =
      some { t with Description := d, UpdatedAt := now } := by
    simp [List.getElem?_set, hlen]
  refine ⟨?_, ?_, fun h => hsame h now, ?_⟩
  · constructor
    · intro hne heq
      exact hne (hsame heq now)
    · intro h
      rw [hdiff h]
      have hne : ({ t with Description := d, UpdatedAt := now } : Task) ≠ t := by
        intro heq
        exact h (congrArg Task.Description heq)
      exact set_getTasks_ne hn hne hz
  · intro h
    refine ⟨n, hn, hdiff h, ?_⟩
    rw [hdiff h]
    exact hat
  · intro now2
    by_cases h : d = t.Description
    · rw [hsame h now]
      exact hsame h now2
    · rw [hdiff h]
      have hall : ∀ a ∈ (getTasks file).set n
          { t with Description := d, UpdatedAt := now }, a.DeletedAt = 0 := by
        intro a ha
        rcases List.mem_or_eq_of_mem_set ha with h1 | h1
        · exact (mem_getTasks.mp h1).2
        · rw [h1]; exact hz
      have hs' : StrictAsc ((getTasks file).set n
          { t with Description := d, UpdatedAt := now }) :=
        hs.set_same_id hn rfl
      have hget' : getTask (getTasks ((getTasks file).set n
          { t with Description := d, UpdatedAt := now })) t.Id =
          .ok (n, { t with Description := d, UpdatedAt := now }) := by
        rw [getTasks_of_all_zero hall]
        exact getTask_of_index hs' hat
      rw [update_of_found hget']
      simp [hnd]

/-- C10 (amended), instantiated at the todo task of `exampleStore` and the new
description "x". -/
theorem update_changes_store_iff_description_differs_witness :
    StrictAsc (getTasks exampleStore) ∧ exampleTodo ∈ exampleStore ∧
      ((update exampleStore exampleTodo.Id (GoString.ofString "x") 9).store ≠
          exampleStore ↔ "x" ≠ exampleTodo.Description) ∧
      ("x" ≠ exampleTodo.Description → ∃ n, (getTasks exampleStore)[n]? = some exampleTodo ∧
        (update exampleStore exampleTodo.Id (GoString.ofString "x") 9).store =
          (getTasks exampleStore).set n
            { exampleTodo with Description := "x", UpdatedAt := 9 } ∧
        (update exampleStore exampleTodo.Id (GoString.ofString "x") 9).store[n]? =
          some { exampleTodo with Description := "x", UpdatedAt := 9 }) ∧
      ("x" = exampleTodo.Description →
        (update exampleStore exampleTodo.Id (GoString.ofString "x") 9).store =
          exampleStore) ∧
      (∀ now2, (update (update exampleStore exampleTodo.Id (GoString.ofString "x") 9).store
          exampleTodo.Id (GoString.ofString "x") now2).store =
        (update exampleStore exampleTodo.Id (GoString.ofString "x") 9).store) :=
  ⟨by decide, by decide,
    update_changes_store_iff_description_differs exampleStore exampleTodo "x" 9
      (by decide) (by decide) (by decide) (by decide)⟩

/-! ## Claims on delete, add and the frame -/

/-- Marking one element of the loaded collection as deleted and loading again
removes exactly that element. -/
theorem getTasks_set_deleted {file : List Task} {n : Nat} {t t' : Task}
    (h : (getTasks file)[n]? = some t) (hd : t'.DeletedAt ≠ 0) :
    getTasks ((getTasks file).set n t') = (getTasks file).eraseIdx n := by
  have hn := (List.getElem?_eq_some_iff.mp h).1
  have hall : ∀ a ∈ getTasks file, Time.IsZero a.DeletedAt = true := by
    intro a ha
    simp [Time.IsZero, (mem_getTasks.mp ha).2]
  have htake : ((getTasks file).take n).filter (fun val => Time.IsZero val.DeletedAt) =
      (getTasks file).take n :=
    List.filter_eq_self.mpr (fun a ha => hall a (List.mem_of_mem_take ha))
  have hdrop : ((getTasks file).drop (n + 1)).filter
      (fun val => Time.IsZero val.DeletedAt) = (getTasks file).drop (n + 1) :=
    List.filter_eq_self.mpr (fun a ha => hall a (List.mem_of_mem_drop ha))
  have hneg : ¬ (Time.IsZero t'.DeletedAt = true) := by
    simp [Time.IsZero, hd]
  have hcons : (t' :: (getTasks file).drop (n + 1)).filter
      (fun val => Time.IsZero val.DeletedAt) = (getTasks file).drop (n + 1) := by
    rw [List.filter_cons_of_neg (by simpa using hneg), hdrop]
  rw [getTasks_eq ((getTasks file).set n t'), List.set_eq_take_append_cons_drop, if_pos hn,
    List.filter_append, hcons, htake, List.eraseIdx_eq_take_drop_succ]

/-- C11 (counterexample to the claim as stated): in the store holding task 2
before task 1, task 1 is visible with status todo, yet delete 1 returns without
writing anything: the binary search misses the task and `delete` ignores the
not-found error. -/
theorem delete_misses_task_in_unsorted_store :
    ({ DeletedAt := 0, CreatedAt := 2, UpdatedAt := 0, Description := "a",
       Status := Todo, Id := 1 } : Task) ∈
      getTasks
        [{ DeletedAt := 0, CreatedAt := 1, UpdatedAt := 0, Description := "b",
           Status := Todo, Id := 2 },
         { DeletedAt := 0, CreatedAt := 2, UpdatedAt := 0, Description := "a",
           Status := Todo, Id := 1 }] ∧
      delete
        [{ DeletedAt := 0, CreatedAt := 1, UpdatedAt := 0, Description := "b",
           Status := Todo, Id := 2 },
         { DeletedAt := 0, CreatedAt := 2, UpdatedAt := 0, Description := "a",
           Status := Todo, Id := 1 }] 1 9 =
        { store :=
            [{ DeletedAt := 0, CreatedAt := 1, UpdatedAt := 0, Description := "b",
               Status := Todo, Id := 2 },
             { DeletedAt := 0, CreatedAt := 2, UpdatedAt := 0, Description := "a",
               Status := Todo, Id := 1 }],
          out := [], err := none } := by
  decide

/-- C11 (amended): for every store whose loaded (non-deleted) tasks are strictly
ascending by id and every visible task `t` with status todo or in-progress,
`delete` of its id at the clock reading `now` (never the zero time) returns
normally and writes the loaded collection with `t` replaced, at its index, by
`t` with deletedAt = now and every other field unchanged; the collection loaded
afterwards is the collection loaded before with exactly that element removed,
order preserved. -/
theorem delete_sets_deletedAt_and_hides_task (file : List Task) (t : Task) (now : Time)
    (hs : StrictAsc (getTasks file)) (ht : t ∈ file) (hz : t.DeletedAt = 0)
    (hst : t.Status = Todo ∨ t.Status = InProgress) (hnow : now ≠ 0) :
    ∃ n, (getTasks file)[n]? = some t ∧
      (delete file t.Id now).store =
        (getTasks file).set n { t with DeletedAt := now } ∧
      (delete file t.Id now).store[n]? = some { t with DeletedAt := now } ∧
      getTasks (delete file t.Id now).store = (getTasks file).eraseIdx n ∧
      (delete file t.Id now).err = none := by
  obtain ⟨n, hn, hget⟩ := getTask_of_mem hs (mem_getTasks.mpr ⟨ht, hz⟩)
  have hlen := (List.getElem?_eq_some_iff.mp hn).1
  have hnd : t.Status ≠ Done := by
    rcases hst with h | h <;> rw [h] <;> decide
  have hdel : delete file t.Id now =
      { store := (getTasks file).set n { t with DeletedAt := now },
        out := [list ((getTasks file).set n { t with DeletedAt := now }) ""],
        err := none } := by
    rw [delete_of_found hget]
    simp [hnd]
  refine ⟨n, hn, ?_, ?_, ?_, ?_⟩
  · rw [hdel]
  · rw [hdel]
    simp [List.getElem?_set, hlen]
  · rw [hdel]
    exact getTasks_set_deleted hn hnow
  · rw [hdel]

/-- C11 (amended), instantiated at the todo task of `exampleStore`. -/
theorem delete_sets_deletedAt_and_hides_task_witness :
    StrictAsc (getTasks exampleStore) ∧ exampleTodo ∈ exampleStore ∧
      ∃ n, (getTasks exampleStore)[n]? = some exampleTodo ∧
        (delete exampleStore exampleTodo.Id 9).store =
          (getTasks exampleStore).set n { exampleTodo with DeletedAt := 9 } ∧
        (delete exampleStore exampleTodo.Id 9).store[n]? =
          some { exampleTodo with DeletedAt := 9 } ∧
        getTasks (delete exampleStore exampleTodo.Id 9).store =
          (getTasks exampleStore).eraseIdx n ∧
        (delete exampleStore exampleTodo.Id 9).err = none :=
  ⟨by decide, by decide,
    delete_sets_deletedAt_and_hides_task exampleStore exampleTodo 9
      (by decide) (by decide) (by decide) (by decide) (by decide)⟩

/-- C12 (counterexample to the claim as stated), in two parts.  When the last
loaded task has the largest Go `int` as id, `add` appends a task whose id is
the smallest Go `int`, not the last id plus one.  And `add` with the one-byte
argument 0xFF, which is not valid UTF-8, appends a task whose description is
U+FFFD, not the given argument. -/
theorem add_wraps_id_at_max_int_and_coerces_invalid_utf8 :
    (add
      [{ DeletedAt := 0, CreatedAt := 1, UpdatedAt := 0, Description := "a",
         Status := Todo, Id := 9223372036854775807 }] (GoString.ofString "b") 2).store =
      [{ DeletedAt := 0, CreatedAt := 1, UpdatedAt := 0, Description := "a",
         Status := Todo, Id := 9223372036854775807 },
       { DeletedAt := 0, CreatedAt := 2, UpdatedAt := 0, Description := "b",
         Status := Todo, Id := -9223372036854775808 }] ∧
      (-9223372036854775808 : Int) ≠ 9223372036854775807 + 1 ∧
      (add [] [GoRune.invalid 255] 2).store =
        [{ DeletedAt := 0, CreatedAt := 2, UpdatedAt := 0, Description := "\uFFFD",
           Status := Todo, Id := 1 }] ∧
      getTasks (add [] [GoRune.invalid 255] 2).store =
        [{ DeletedAt := 0, CreatedAt := 2, UpdatedAt := 0, Description := "\uFFFD",
           Status := Todo, Id := 1 }] ∧
      GoString.ofString "\uFFFD" ≠ [GoRune.invalid 255] := by
  decide

/-- C12 (amended): for every store whose last loaded task, if any, has an id
that is a Go `int` below the largest one, and every description that is valid
UTF-8 text: `add` writes, and the collection loaded afterwards equals, the
collection loaded before with one task appended, whose id is the last loaded id
plus one, or 1 when nothing is loaded, whose description is the given text,
status todo, createdAt = now, and updatedAt and deletedAt zero; the tasks loaded
before are unchanged. -/
theorem add_appends_task_with_next_id (file : List Task) (title : String) (now : Time)
    (hr : ∀ last, (getTasks file).getLast? = some last →
      -9223372036854775808 ≤ last.Id ∧ last.Id < 9223372036854775807) :
    (add file (GoString.ofString title) now).store = getTasks file ++
        [{ Id := (match (getTasks file).getLast? with
                  | some last => last.Id + 1
                  | none => 1),
           Description := title, Status := Todo, CreatedAt := now, UpdatedAt := 0,
           DeletedAt := 0 }] ∧
      getTasks (add file (GoString.ofString title) now).store = getTasks file ++
        [{ Id := (match (getTasks file).getLast? with
                  | some last => last.Id + 1
                  | none => 1),
           Description := title, Status := Todo, CreatedAt := now, UpdatedAt := 0,
           DeletedAt := 0 }] ∧
      (add file (GoString.ofString title) now).err = none := by
  have hstore : (add file (GoString.ofString title) now).store = getTasks file ++
      [{ Id := (match (getTasks file).getLast? with
                | some last => last.Id + 1
                | none => 1),
         Description := title, Status := Todo, CreatedAt := now, UpdatedAt := 0,
         DeletedAt := 0 }] := by
    rw [add_store, marshalString_ofString]
    cases hl : (getTasks file).getLast? with
    | none => rfl
    | some last =>
      have := hr last hl
      simp only
      rw [wrapInt_of_inRange (by omega) (by omega)]
  refine ⟨hstore, ?_, rfl⟩
  rw [hstore]
  apply getTasks_of_all_zero
  intro a ha
  rcases List.mem_append.mp ha with h | h
  · exact (mem_getTasks.mp h).2
  · simp at h
    rw [h]

/-- C12 (amended), instantiated at `exampleStore`, whose last loaded task has
id 3. -/
theorem add_appends_task_with_next_id_witness :
    (add exampleStore (GoString.ofString "e") 9).store = getTasks exampleStore ++
        [{ Id := (match (getTasks exampleStore).getLast? with
                  | some last => last.Id + 1
                  | none => 1),
           Description := "e", Status := Todo, CreatedAt := 9, UpdatedAt := 0,
           DeletedAt := 0 }] ∧
      getTasks (add exampleStore (GoString.ofString "e") 9).store =
        getTasks exampleStore ++
        [{ Id := (match (getTasks exampleStore).getLast? with
                  | some last => last.Id + 1
                  | none => 1),
           Description := "e", Status := Todo, CreatedAt := 9, UpdatedAt := 0,
           DeletedAt := 0 }] ∧
      (add exampleStore (GoString.ofString "e") 9).err = none :=
  add_appends_task_with_next_id exampleStore "e" 9 (by
    intro last hl
    have hlast : (getTasks exampleStore).getLast? = some exampleDone := by decide
    rw [hlast] at hl
    cases hl
    decide)

/-- Loading what was loaded gives the same collection. -/
theorem getTasks_getTasks (file : List Task) : getTasks (getTasks file) = getTasks file :=
  getTasks_of_all_zero (fun _ ht => (mem_getTasks.mp ht).2)

/-- Frame of a command that either leaves the file alone or writes the loaded
collection with the looked-up element replaced by a record of the same id and
createdAt: the records `after` of the tasks visible before agree with them
index by index in id and createdAt, are identical wherever the id is not the
requested one, and the tasks visible afterwards are the non-deleted ones among
`after`. -/
theorem frame_of_shape {file store : List Task} {taskId : Int}
    (h : store = file ∨ ∃ n t t', getTask (getTasks file) taskId = .ok (n, t) ∧
      t'.Id = t.Id ∧ t'.CreatedAt = t.CreatedAt ∧ store = (getTasks file).set n t') :
    ∃ after : List Task, after.length = (getTasks file).length ∧
      (∀ (i : Nat) (v : Task), (getTasks file)[i]? = some v →
        ∃ v' : Task, after[i]? = some v' ∧ v'.Id = v.Id ∧ v'.CreatedAt = v.CreatedAt ∧
          (v.Id ≠ taskId → v' = v)) ∧
      (∀ (i j : Nat) (v w : Task), (getTasks file)[i]? = some v →
        (getTasks file)[j]? = some w → after[i]? ≠ some v → after[j]? ≠ some w → i = j) ∧
      getTasks store = getTasks after ∧ (store = file ∨ store = after) := by
  rcases h with h | ⟨n, t, t', hget, hid, hc, hstore⟩
  · refine ⟨getTasks file, rfl, ?_, ?_, ?_, Or.inl h⟩
    · intro i v hv
      exact ⟨v, hv, rfl, rfl, fun _ => rfl⟩
    · intro i j v w hv _ hne
      exact absurd hv hne
    · rw [h, getTasks_getTasks]
  · refine ⟨(getTasks file).set n t', by simp, ?_, ?_, by rw [hstore], Or.inr hstore⟩
    rotate_left
    · intro i j v w hv hw hi hj
      have hin : n = i := by
        by_contra hne
        exact hi (by rw [List.getElem?_set_ne hne]; exact hv)
      have hjn : n = j := by
        by_contra hne
        exact hj (by rw [List.getElem?_set_ne hne]; exact hw)
      omega
    intro i v hv
    have hi := (List.getElem?_eq_some_iff.mp hv).1
    by_cases hin : n = i
    · subst hin
      have hvt : v = t := by
        have h1 := (getTask_ok hget).1
        rw [hv] at h1
        exact Option.some.inj h1
      subst hvt
      refine ⟨t', by simp [List.getElem?_set, hi], hid, hc, ?_⟩
      intro hne
      exact absurd (getTask_ok hget).2 hne
    · exact ⟨v, by simp [List.getElem?_set, hin, hv], rfl, rfl, fun _ => rfl⟩

/-- C13: for every store and every update, status change or delete with a given
id, the records left for the tasks that were visible before (the file is either
untouched or rewritten as exactly these records) agree with those tasks, index
by index, in id and createdAt, and every such task whose id is not the given id
is unchanged in all its fields; at most one index holds a changed record; the
tasks visible afterwards are the non-deleted ones among these records, in the
same order. -/
theorem commands_keep_id_createdAt_and_other_tasks (file : List Task) (taskId : Int) :
    (∀ description now, ∃ after : List Task, after.length = (getTasks file).length ∧
      (∀ (i : Nat) (v : Task), (getTasks file)[i]? = some v →
        ∃ v' : Task, after[i]? = some v' ∧ v'.Id = v.Id ∧ v'.CreatedAt = v.CreatedAt ∧
          (v.Id ≠ taskId → v' = v)) ∧
      (∀ (i j : Nat) (v w : Task), (getTasks file)[i]? = some v →
        (getTasks file)[j]? = some w → after[i]? ≠ some v → after[j]? ≠ some w → i = j) ∧
      getTasks (update file taskId description now).store = getTasks after ∧
      ((update file taskId description now).store = file ∨
        (update file taskId description now).store = after)) ∧
    (∀ status now, ∃ after : List Task, after.length = (getTasks file).length ∧
      (∀ (i : Nat) (v : Task), (getTasks file)[i]? = some v →
        ∃ v' : Task, after[i]? = some v' ∧ v'.Id = v.Id ∧ v'.CreatedAt = v.CreatedAt ∧
          (v.Id ≠ taskId → v' = v)) ∧
      (∀ (i j : Nat) (v w : Task), (getTasks file)[i]? = some v →
        (getTasks file)[j]? = some w → after[i]? ≠ some v → after[j]? ≠ some w → i = j) ∧
      getTasks (updateTaskStatus file taskId status now).store = getTasks after ∧
      ((updateTaskStatus file taskId status now).store = file ∨
        (updateTaskStatus file taskId status now).store = after)) ∧
    (∀ now, ∃ after : List Task, after.length = (getTasks file).length ∧
      (∀ (i : Nat) (v : Task), (getTasks file)[i]? = some v →
        ∃ v' : Task, after[i]? = some v' ∧ v'.Id = v.Id ∧ v'.CreatedAt = v.CreatedAt ∧
          (v.Id ≠ taskId → v' = v)) ∧
      (∀ (i j : Nat) (v w : Task), (getTasks file)[i]? = some v →
        (getTasks file)[j]? = some w → after[i]? ≠ some v → after[j]? ≠ some w → i = j) ∧
      getTasks (delete file taskId now).store = getTasks after ∧
      ((delete file taskId now).store = file ∨
        (delete file taskId now).store = after)) := by
  refine ⟨fun description now => frame_of_shape ?_,
    fun status now => frame_of_shape ?_, fun now => frame_of_shape ?_⟩
  · rcases getTask_cases (getTasks file) taskId with h | ⟨n, t, h⟩
    · left; rw [update_of_error h]
    · rw [update_of_found h]
      split_ifs
      · left; rfl
      · right
        exact ⟨n, t, { t with Description := marshalString description, UpdatedAt := now },
          h, rfl, rfl, rfl⟩
      · left; rfl
  · rcases getTask_cases (getTasks file) taskId with h | ⟨n, t, h⟩
    · left; rw [updateTaskStatus_of_error h]
    · rw [updateTaskStatus_of_found h]
      split_ifs
      · left; rfl
      · left; rfl
      · right
        exact ⟨n, t, { t with Status := status, UpdatedAt := now }, h, rfl, rfl, rfl⟩
      · left; rfl
  · rcases getTask_cases (getTasks file) taskId with h | ⟨n, t, h⟩
    · left; rw [delete_of_error h]
    · rw [delete_of_found h]
      split_ifs
      · left; rfl
      · right
        exact ⟨n, t, { t with DeletedAt := now }, h, rfl, rfl, rfl⟩

/-- C14: for every store, `list` with the empty filter prints exactly the
non-deleted tasks whose status is not done, and `list` with a non-empty status
`s` prints exactly the non-deleted tasks whose status equals `s`; both tables
are filters of the file, so they keep the stored order and drop, repeat or alter
nothing else. -/
theorem list_shows_filtered_non_deleted_tasks (file : List Task) :
    list file "" = .table
        ((file.filter (fun t => decide (t.DeletedAt = 0))).filter
          (fun t => decide (t.Status ≠ Done))) ∧
      (∀ s : TaskStatus, s ≠ "" → list file s = .table
        ((file.filter (fun t => decide (t.DeletedAt = 0))).filter
          (fun t => decide (t.Status = s)))) ∧
      list file Done = .table
        ((file.filter (fun t => decide (t.DeletedAt = 0))).filter
          (fun t => decide (t.Status = Done))) := by
  have hg : getTasks file = file.filter (fun t => decide (t.DeletedAt = 0)) := by
    rw [getTasks_eq]
    congr 1
  have hne : ∀ s : TaskStatus, s ≠ "" → list file s = .table
      ((file.filter (fun t => decide (t.DeletedAt = 0))).filter
        (fun t => decide (t.Status = s))) := by
    intro s hs
    unfold list
    simp only [hs, if_false, compact_eq_filter, hg]
  refine ⟨?_, hne, hne Done (by decide)⟩
  unfold list
  simp only [if_true, compact_eq_filter, hg]

/-! ## Claims on output, decoding and deleted records -/

/-- The table printed by `list` with the empty filter. -/
theorem list_empty_eq (file : List Task) :
    list file "" = .table
      ((file.filter (fun t => decide (t.DeletedAt = 0))).filter
        (fun t => decide (t.Status ≠ Done))) := by
  have hg : getTasks file = file.filter (fun t => decide (t.DeletedAt = 0)) := by
    rw [getTasks_eq]
    congr 1
  unfold list
  simp only [if_true, compact_eq_filter, hg]

/-- C15 (counterexample to the claim as stated): in `exampleStore` the id 3 is
found and its task is done; update 3 "x" prints the guard message and nothing
else, so its output does not end with a table.  Likewise mark-done of the todo
task 1 prints only the transition message. -/
theorem guard_paths_print_no_table :
    getTask (getTasks exampleStore) 3 = .ok (2, exampleDone) ∧
      update exampleStore 3 "x" 9 =
        { store := exampleStore, out := [.line "Unable to update completed tasks!"],
          err := none } ∧
      getTask (getTasks exampleStore) 1 = .ok (0, exampleTodo) ∧
      updateTaskStatus exampleStore 1 Done 9 =
        { store := exampleStore,
          out := [.line "Task should be in-progress before done!"], err := none } := by
  refine ⟨rfl, ?_, rfl, ?_⟩ <;> decide

/-- C15 (amended): for every store and every found id, `update` ends its output
with the table of all non-deleted non-done tasks of the file it leaves whenever
the task is not done, also when the description is already the requested one,
and prints only "Unable to update completed tasks!" when the task is done;
`updateTaskStatus` ends its output with that table whenever the transition
guard lets the request through, also when nothing is written, and prints only
the guard message when the transition is rejected. -/
theorem update_and_status_change_list_unless_guarded (file : List Task) (taskId : Int)
    (n : Nat) (t : Task) (h : getTask (getTasks file) taskId = .ok (n, t)) :
    (∀ description now,
      (t.Status ≠ Done →
        (update file taskId description now).out.getLast? = some (.table
          (((update file taskId description now).store.filter
            (fun a => decide (a.DeletedAt = 0))).filter
              (fun a => decide (a.Status ≠ Done))))) ∧
      (t.Status = Done →
        (update file taskId description now).out =
          [.line "Unable to update completed tasks!"])) ∧
    (∀ status now,
      (¬ (status = Done ∧ t.Status ≠ InProgress) →
        ¬ (status = InProgress ∧ t.Status ≠ Todo) →
        (updateTaskStatus file taskId status now).out.getLast? = some (.table
          (((updateTaskStatus file taskId status now).store.filter
            (fun a => decide (a.DeletedAt = 0))).filter
              (fun a => decide (a.Status ≠ Done))))) ∧
      (status = Done ∧ t.Status ≠ InProgress →
        (updateTaskStatus file taskId status now).out =
          [.line "Task should be in-progress before done!"]) ∧
      (status = InProgress ∧ t.Status ≠ Todo →
        (updateTaskStatus file taskId status now).out =
          [.line "Task should be todo before in-progress!"])) := by
  have hdi : InProgress ≠ Done := by decide
  constructor
  · intro description now
    rw [update_of_found h]
    constructor
    · intro hnd
      simp only [hnd, if_false]
      split_ifs <;> simp [list_empty_eq]
    · intro hd
      simp [hd]
  · intro status now
    rw [updateTaskStatus_of_found h]
    refine ⟨?_, ?_, ?_⟩
    · intro h1 h2
      simp only [h1, h2, if_false]
      split_ifs <;> simp [list_empty_eq]
    · intro h1
      simp [h1]
    · intro h2
      obtain ⟨h2a, h2b⟩ := h2
      subst h2a
      simp [hdi, h2b]

/-- C15 (amended), instantiated at `exampleStore` and the id 1 of its todo
task. -/
theorem update_and_status_change_list_unless_guarded_witness :
    (∀ description now,
      (exampleTodo.Status ≠ Done →
        (update exampleStore 1 description now).out.getLast? = some (.table
          (((update exampleStore 1 description now).store.filter
            (fun a => decide (a.DeletedAt = 0))).filter
              (fun a => decide (a.Status ≠ Done))))) ∧
      (exampleTodo.Status = Done →
        (update exampleStore 1 description now).out =
          [.line "Unable to update completed tasks!"])) ∧
    (∀ status now,
      (¬ (status = Done ∧ exampleTodo.Status ≠ InProgress) →
        ¬ (status = InProgress ∧ exampleTodo.Status ≠ Todo) →
        (updateTaskStatus exampleStore 1 status now).out.getLast? = some (.table
          (((updateTaskStatus exampleStore 1 status now).store.filter
            (fun a => decide (a.DeletedAt = 0))).filter
              (fun a => decide (a.Status ≠ Done))))) ∧
      (status = Done ∧ exampleTodo.Status ≠ InProgress →
        (updateTaskStatus exampleStore 1 status now).out =
          [.line "Task should be in-progress before done!"]) ∧
      (status = InProgress ∧ exampleTodo.Status ≠ Todo →
        (updateTaskStatus exampleStore 1 status now).out =
          [.line "Task should be todo before in-progress!"])) :=
  update_and_status_change_list_unless_guarded exampleStore 1 0 exampleTodo rfl

/-- C16 (the code at the failing input): whatever `json.Unmarshal` reports for
the content of a readable file, a decode error included, `getTasks` returns a
task sequence, namely the compaction of the slice the decoder left; a following
`add` then writes that sequence with one more task over the file. -/
theorem getTasks_returns_despite_decode_error
    (unmarshal : String → List Task × Option String) (data : String) (title : GoString)
    (now : Time) :
    getTasksFrom unmarshal (.ok data) = .ok (getTasks (unmarshal data).1) ∧
      (add (unmarshal data).1 title now).err = none ∧
      (add (unmarshal data).1 title now).store.length =
        (getTasks (unmarshal data).1).length + 1 := by
  refine ⟨rfl, rfl, ?_⟩
  rw [add_store]
  simp

/-- A collection without deleted records counts none. -/
theorem countP_deleted_eq_zero {tasks : List Task} (h : ∀ a ∈ tasks, a.DeletedAt = 0) :
    tasks.countP (fun a => decide (a.DeletedAt ≠ 0)) = 0 := by
  rw [List.countP_eq_zero]
  intro a ha
  simp [h a ha]

/-- Replacing one element of the loaded collection leaves at most one deleted
record. -/
theorem countP_deleted_set_le (file : List Task) (n : Nat) (t' : Task) :
    ((getTasks file).set n t').countP (fun a => decide (a.DeletedAt ≠ 0)) ≤ 1 := by
  have hall : ∀ a ∈ getTasks file, a.DeletedAt = 0 := fun a ha => (mem_getTasks.mp ha).2
  rw [List.set_eq_take_append_cons_drop]
  split_ifs with hn
  · rw [List.countP_append, List.countP_cons,
      countP_deleted_eq_zero (fun a ha => hall a (List.mem_of_mem_take ha)),
      countP_deleted_eq_zero (fun a ha => hall a (List.mem_of_mem_drop ha))]
    split_ifs <;> omega
  · rw [countP_deleted_eq_zero hall]
    omega

/-- Every record of the file written by `add` is non-deleted. -/
theorem add_store_all_zero (file : List Task) (title : GoString) (now : Time) :
    ∀ r ∈ (add file title now).store, r.DeletedAt = 0 := by
  intro r hr
  rw [add_store] at hr
  rcases List.mem_append.mp hr with h | h
  · exact (mem_getTasks.mp h).2
  · simp at h
    rw [h]

/-- One command leaves the file alone or leaves at most one deleted record. -/
theorem main_deleted_le_one (file : List Task) (op : Op) :
    (main file op).store = file ∨
      (main file op).store.countP (fun a => decide (a.DeletedAt ≠ 0)) ≤ 1 := by
  rcases main_store_shape file op with ⟨title, now, rfl⟩ | h | ⟨n, t, t', _, _, h3⟩
  · right
    have := countP_deleted_eq_zero (add_store_all_zero file title now)
    show (add file title now).store.countP (fun a => decide (a.DeletedAt ≠ 0)) ≤ 1
    omega
  · left; exact h
  · right
    rw [h3]
    exact countP_deleted_set_le file n t'

/-- A command sequence keeps the number of deleted records at most one. -/
theorem run_deleted_le_one : ∀ (ops : List Op) (file : List Task),
    file.countP (fun a => decide (a.DeletedAt ≠ 0)) ≤ 1 →
    (run file ops).countP (fun a => decide (a.DeletedAt ≠ 0)) ≤ 1 := by
  intro ops
  induction ops with
  | nil => intro file h; exact h
  | cons op ops ih =>
    intro file h
    simp only [run]
    apply ih
    rcases main_deleted_le_one file op with h1 | h1
    · rw [h1]; exact h
    · exact h1

/-- C18: every store reached from the empty store by a command sequence holds
at most one record with a non-zero deletedAt; and on any store, the file left
by `add`, and the file left by `update` or `updateTaskStatus` whenever they
change it, holds no such record: a write persists the loaded (filtered)
collection, so a soft-deleted record is gone after the next write. -/
theorem reachable_store_has_at_most_one_deleted_record (ops : List Op) :
    (run [] ops).countP (fun a => decide (a.DeletedAt ≠ 0)) ≤ 1 ∧
      (∀ (file : List Task) (title : GoString) (now : Time),
        ∀ r ∈ (add file title now).store, r.DeletedAt = 0) ∧
      (∀ (file : List Task) (taskId : Int) (description : GoString) (now : Time),
        (update file taskId description now).store ≠ file →
        ∀ r ∈ (update file taskId description now).store, r.DeletedAt = 0) ∧
      (∀ (file : List Task) (taskId : Int) (status : TaskStatus) (now : Time),
        (updateTaskStatus file taskId status now).store ≠ file →
        ∀ r ∈ (updateTaskStatus file taskId status now).store, r.DeletedAt = 0) := by
  refine ⟨run_deleted_le_one ops [] (by simp), add_store_all_zero, ?_, ?_⟩
  · intro file taskId description now hne r hr
    rcases update_store_shape file taskId description now with
      h | ⟨n, t, t', _, _, hz, hstore⟩
    · exact absurd h hne
    · rw [hstore] at hr
      rcases List.mem_or_eq_of_mem_set hr with h1 | h1
      · exact (mem_getTasks.mp h1).2
      · rw [h1]; exact hz
  · intro file taskId status now hne r hr
    rcases updateTaskStatus_store_shape file taskId status now with
      h | ⟨n, t, t', _, _, hz, hstore⟩
    · exact absurd h hne
    · rw [hstore] at hr
      rcases List.mem_or_eq_of_mem_set hr with h1 | h1
      · exact (mem_getTasks.mp h1).2
      · rw [h1]; exact hz

/-- C19: for every stored collection and every id, the task that the lookup
over the loaded collection returns has a zero deletedAt; so `update` and
`updateTaskStatus` never print "Unable to update deleted tasks!", and `delete`
of a found id never takes its silent already-deleted return: it prints the
completed-task message or the table. -/
theorem lookup_never_returns_deleted_task (file : List Task) (taskId : Int) (n : Nat)
    (t : Task) (h : getTask (getTasks file) taskId = .ok (n, t)) :
    t.DeletedAt = 0 ∧
      (∀ description now, Out.line "Unable to update deleted tasks!" ∉
        (update file taskId description now).out) ∧
      (∀ status now, Out.line "Unable to update deleted tasks!" ∉
        (updateTaskStatus file taskId status now).out) ∧
      (∀ now, (delete file taskId now).out ≠ []) := by
  refine ⟨getTask_getTasks_zero h, ?_, ?_, ?_⟩
  · intro description now
    rw [update_of_found h]
    split_ifs <;> simp [list]
  · intro status now
    rw [updateTaskStatus_of_found h]
    split_ifs <;> simp [list]
  · intro now
    rw [delete_of_found h]
    split_ifs <;> simp

/-- C19, instantiated at `exampleStore` and the id 1 of its todo task. -/
theorem lookup_never_returns_deleted_task_witness :
    exampleTodo.DeletedAt = 0 ∧
      (∀ description now, Out.line "Unable to update deleted tasks!" ∉
        (update exampleStore 1 description now).out) ∧
      (∀ status now, Out.line "Unable to update deleted tasks!" ∉
        (updateTaskStatus exampleStore 1 status now).out) ∧
      (∀ now, (delete exampleStore 1 now).out ≠ []) :=
  lookup_never_returns_deleted_task exampleStore 1 0 exampleTodo rfl

/-! ## Claim on the round trip -/

end TaskCli
